import Mathlib

/-!
Verification development for the news-bot deduplication and cross-source
matching engine (src/utils/similarity.py, src/sources/dzen.py,
src/scheduler.py, src/storage/s3.py).

Modelling conventions:
* Python floats are modelled as rationals (`ℚ`); the claims under study only
  involve arithmetic, `min` and order comparisons, which are exact here.
* `numpy.linalg.norm` (a floating point square root) is modelled by `qsqrt`,
  a computable rational square root that is exact on perfect squares; every
  concrete vector used in theorems below has a perfect-square norm, so the
  model agrees with the source on those inputs.
* The SBERT embedding model is a black box `text -> vector`; it is passed
  around as a function `String → Option (List ℚ)`, where `none` models an
  exception raised during embedding computation (the failure mode of claim
  C8).  The embedding caches only affect performance, not results, so the
  scoring pipeline reads embeddings directly from that function; the cache
  itself (`LRUCache`) is modelled separately for the cache claims.
* Python strings are modelled as `String`; text processing is implemented on
  `List Char` so that every function reduces in the kernel.  `str.lower` is
  modelled for the alphabet the source cares about (ASCII plus the Russian
  block with Ё); the regexes of `normalize_text_simple` are translated
  character class by character class.
-/

/-- Model of `str.lower` restricted to the alphabet relevant to
`normalize_text_simple` (ASCII letters, Cyrillic А-Я and Ё). -/
def ruLower (c : Char) : Char :=
  if 'A' ≤ c ∧ c ≤ 'Z' then Char.ofNat (c.toNat + 32)
  else if 'А' ≤ c ∧ c ≤ 'Я' then Char.ofNat (c.toNat + 32)
  else if c = 'Ё' then 'ё'
  else c

/-- Character class `[а-яa-z0-9ё]` of the regex in `normalize_text_simple`. -/
def isRuAlnum (c : Char) : Bool :=
  ('а' ≤ c ∧ c ≤ 'я') ∨ ('a' ≤ c ∧ c ≤ 'z') ∨ ('0' ≤ c ∧ c ≤ '9') ∨ c = 'ё'

/-- Split a character list into maximal nonempty words separated by spaces
(the effect of `str.split()` on the already-collapsed text). The second
argument accumulates the current word, reversed. -/
def wordsAux : List Char → List Char → List (List Char)
  | [], acc => if acc = [] then [] else [acc.reverse]
  | c :: cs, acc =>
    if c = ' ' then
      if acc = [] then wordsAux cs [] else acc.reverse :: wordsAux cs []
    else wordsAux cs (c :: acc)

/-- Join words with single spaces (the normal form produced by
`re.sub(r'\s+', ' ', text).strip()`). -/
def joinWords : List (List Char) → List Char
  | [] => []
  | [w] => w
  | w :: ws => w ++ ' ' :: joinWords ws

/-- `normalize_text_simple` from src/utils/similarity.py: lowercase, replace
every character outside `[а-яa-z0-9ё\s]` by a space, collapse whitespace and
strip.  Mapping non-alphanumeric characters to spaces and then splitting and
re-joining on single spaces is exactly the composition of the two
`re.sub` calls followed by `strip()`. -/
def normalize_text_simple (text : String) : String :=
  let cleaned := text.data.map (fun c => let lc := ruLower c; if isRuAlnum lc then lc else ' ')
  String.mk (joinWords (wordsAux cleaned []))

/-- `COMMON_WORD_STOPLIST` from src/utils/similarity.py. -/
def COMMON_WORD_STOPLIST : List String :=
  ["рассказал", "рассказала", "рассказало", "рассказали",
   "сообщил", "сообщила", "сообщило", "сообщили",
   "заявил", "заявила", "заявило", "заявили",
   "отметил", "отметила", "отметило", "отметили",
   "уточнил", "уточнила", "уточнило", "уточнили",
   "указал", "указала", "указало", "указали",
   "подчеркнул", "подчеркнула", "подчеркнуло", "подчеркнули",
   "добавил", "добавила", "добавило", "добавили",
   "прокомментировал", "прокомментировала", "прокомментировало", "прокомментировали",
   "написал", "написала", "написало", "написали",
   "сказал", "сказала", "сказало", "сказали",
   "собя", "моск", "ново"]

/-- Keep one copy of each element (Python `set` of a list; only membership and
cardinality of the result are ever used). -/
def dedupKeep [DecidableEq α] : List α → List α
  | [] => []
  | a :: as => if a ∈ as then dedupKeep as else a :: dedupKeep as

/-- `normalize_for_match` from src/utils/similarity.py: normalize, split into
words, drop words of length ≤ 2 or in `COMMON_WORD_STOPLIST`, truncate each
survivor to its first 4 characters, and take the set of results. -/
def normalize_for_match (text : String) : List String :=
  let t := normalize_text_simple text
  dedupKeep
    (((wordsAux t.data []).filter
        (fun w => decide (2 < w.length) && !decide (String.mk w ∈ COMMON_WORD_STOPLIST))).map
      (fun w => String.mk (w.take 4)))

/-- `count_common_words` from src/utils/similarity.py: the size of the
intersection of the two filtered token sets. -/
def count_common_words (title1 title2 : String) : ℕ :=
  ((normalize_for_match title1).filter
    (fun w => decide (w ∈ normalize_for_match title2))).length

/-- Does `pat` occur at the front of `s`? (helper for the substring test). -/
def frontMatches : List Char → List Char → Bool
  | [], _ => true
  | _ :: _, [] => false
  | a :: as, b :: bs => decide (a = b) && frontMatches as bs

/-- Does `pat` occur contiguously anywhere in `s`?  Models Python's
`pat in s` on strings (note `'' in s` is `True`). -/
def occursIn (pat : List Char) : List Char → Bool
  | [] => frontMatches pat []
  | c :: cs => frontMatches pat (c :: cs) || occursIn pat cs

/-- Python substring containment `pat in s`. -/
def pyInStr (pat s : String) : Bool := occursIn pat.data s.data

/-- `has_keyword_phrase_in_both` from src/utils/similarity.py, with the
keyword list (read from filters/keywords.yaml in the source) passed as a
parameter: a multi-word phrase must occur as a substring of both normalized
titles, a single word must occur as a separate token of both. -/
def has_keyword_phrase_in_both (keywords : List String) (title1 title2 : String) : Bool :=
  let norm1 := normalize_text_simple title1
  let norm2 := normalize_text_simple title2
  keywords.any (fun kw =>
    let norm_kw := normalize_text_simple kw
    if norm_kw.data.any (fun c => decide (c = ' ')) then
      pyInStr norm_kw norm1 && pyInStr norm_kw norm2
    else
      pyInStr (" " ++ norm_kw ++ " ") (" " ++ norm1 ++ " ") &&
      pyInStr (" " ++ norm_kw ++ " ") (" " ++ norm2 ++ " "))

/-- Dot product of two vectors (`np.dot`); the source always pairs vectors of
equal dimension. -/
def dotQ : List ℚ → List ℚ → ℚ
  | a :: as, b :: bs => a * b + dotQ as bs
  | _, _ => 0

/-- Fuel-based integer square root (largest `r` with `r * r ≤ n`, searched
upward); structurally recursive so that it reduces in the kernel. -/
def isqrtAux (n : ℕ) : ℕ → ℕ → ℕ
  | 0, r => r
  | f + 1, r => if (r + 1) * (r + 1) ≤ n then isqrtAux n f (r + 1) else r

/-- Integer square root, exact on perfect squares. -/
def isqrt (n : ℕ) : ℕ := isqrtAux n n 0

/-- Computable rational model of the floating point square root used by
`np.linalg.norm`; exact whenever the argument is a perfect square (which is
the case in every concrete computation below). -/
def qsqrt (x : ℚ) : ℚ := (isqrt (x.num.toNat * x.den) : ℚ) / (x.den : ℚ)

/-- `np.linalg.norm v` — the Euclidean norm of `v`. -/
def vnorm (v : List ℚ) : ℚ := qsqrt (dotQ v v)

/-- Cosine similarity with the `1e-9` division guard of
`calculate_similarity_sbert`. -/
def cos_sim (a b : List ℚ) : ℚ := dotQ a b / (vnorm a * vnorm b + 1 / 1000000000)

/-- A mos.ru reference item as consumed by the matcher (`url`, `title`,
`snippet` of `MosruHistoryItem`; an absent snippet is the empty string). -/
structure MosruItem where
  url : String
  title : String
  snippet : String
deriving DecidableEq

/-- The three cached reference vectors of `get_mosru_embeddings`. -/
structure MosruEmbeddings where
  title : List ℚ
  title_snippet : List ℚ
  snippet : List ℚ
deriving DecidableEq

/-- `get_mosru_embeddings` from src/utils/similarity.py, with the embedding
model abstracted as `embed` (`none` = embedding computation raised): the
title vector, the title-plus-snippet vector, and the snippet vector, the
latter two falling back to the title vector and a zero vector when the item
has no snippet. -/
def get_mosru_embeddings (embed : String → Option (List ℚ)) (item : MosruItem) :
    Option MosruEmbeddings :=
  match embed item.title with
  | none => none
  | some emb_title =>
    if item.snippet ≠ "" then
      match embed (item.title ++ ". " ++ item.snippet), embed item.snippet with
      | some emb_title_snippet, some emb_snippet =>
        some ⟨emb_title, emb_title_snippet, emb_snippet⟩
      | _, _ => none
    else some ⟨emb_title, emb_title, List.replicate emb_title.length 0⟩

/-- `calculate_similarity_sbert` from src/utils/similarity.py: average the
cosine similarities of the candidate vector with the reference title vector
and the reference title+snippet vector, apply the lexical/keyword bonus, cap
at 1.  Any embedding failure is caught and yields 0 (the `except` branch). -/
def calculate_similarity_sbert (embed : String → Option (List ℚ)) (keywords : List String)
    (dzen_title : String) (mosru_item : MosruItem) : ℚ :=
  match embed dzen_title, get_mosru_embeddings embed mosru_item with
  | some dzen_emb, some mosru_embs =>
    let score_title := cos_sim dzen_emb mosru_embs.title
    let score_title_snippet := cos_sim dzen_emb mosru_embs.title_snippet
    let avg_score := (score_title + score_title_snippet) / 2
    let n_common := count_common_words dzen_title mosru_item.title
    let has_matching_keywords := has_keyword_phrase_in_both keywords dzen_title mosru_item.title
    let bonus : ℚ :=
      if 3 ≤ n_common then
        if 7 / 10 ≤ avg_score then 1 / 10 else 15 / 100
      else if has_matching_keywords then 15 / 100 else 0
    min (avg_score * (1 + bonus)) 1
  | _, _ => 0

/-- One step of a keep-the-best loop: replace the running best only on a
strictly greater score. -/
def best_step (f : α → ℚ) (acc : Option α × ℚ) (x : α) : Option α × ℚ :=
  if acc.2 < f x then (some x, f x) else acc

/-- The loop body of `find_best_match`, scoring with
`calculate_similarity_sbert`. -/
def fbm_step (embed : String → Option (List ℚ)) (keywords : List String) (dzen_title : String) :
    Option MosruItem × ℚ → MosruItem → Option MosruItem × ℚ :=
  best_step (calculate_similarity_sbert embed keywords dzen_title)

/-- `find_best_match` from src/utils/similarity.py: fold over the reference
pool starting from `(None, 0.0)`. -/
def find_best_match (embed : String → Option (List ℚ)) (keywords : List String)
    (dzen_title : String) (mosru_items : List MosruItem) : Option MosruItem × ℚ :=
  mosru_items.foldl (fbm_step embed keywords dzen_title) (none, 0)

/-- Bonus determination as worded by the spec (mutually exclusive rules in
priority order); compared with the source computation in claim C3. -/
def bonus_spec (common : ℕ) (kwBoth : Bool) (base : ℚ) : ℚ :=
  if 3 ≤ common then
    if 7 / 10 ≤ base then 1 / 10 else 15 / 100
  else if kwBoth then 15 / 100 else 0

/-- The raw averaged cosine score (`avg_score` in the source) before bonus
and capping; 0 when an embedding is unavailable. -/
def mosru_base_score (embed : String → Option (List ℚ)) (dzen_title : String)
    (mosru_item : MosruItem) : ℚ :=
  match embed dzen_title, get_mosru_embeddings embed mosru_item with
  | some dzen_emb, some mosru_embs =>
    (cos_sim dzen_emb mosru_embs.title + cos_sim dzen_emb mosru_embs.title_snippet) / 2
  | _, _ => 0

/-- Association lookup in a list of key-value pairs (Python `dict` access;
keys are unique in every dictionary modelled here). -/
def assocFind [DecidableEq α] (k : α) : List (α × β) → Option β
  | [] => none
  | p :: ps => if p.1 = k then some p.2 else assocFind k ps

/-- Insert/overwrite a key in an association list (Python `d[k] = v`). -/
def mapInsert [DecidableEq α] (m : List (α × β)) (k : α) (v : β) : List (α × β) :=
  (k, v) :: m.filter (fun p => decide (p.1 ≠ k))

/-- Model of the `LRUCache(OrderedDict)` class of src/utils/similarity.py:
`entries` is the ordered dictionary, front = least recently used (the key
`next(iter(self))` deletes), back = most recently used. -/
structure LRUCache (α β : Type) where
  capacity : ℕ
  entries : List (α × β)

/-- `LRUCache.__setitem__`: a present key is moved to the end, the value is
written, and if the size now exceeds the capacity the single oldest entry is
deleted.  Erase-then-append is exactly move-to-end-and-overwrite for a
present key and a plain append for a fresh one. -/
def lru_set [DecidableEq α] (c : LRUCache α β) (k : α) (v : β) : LRUCache α β :=
  let ents := c.entries.filter (fun p => decide (p.1 ≠ k)) ++ [(k, v)]
  if c.capacity < ents.length then ⟨c.capacity, ents.tail⟩ else ⟨c.capacity, ents⟩

/-- `LRUCache.__getitem__`: a present key is moved to the end and its value
returned; a missing key raises `KeyError`, modelled as `none` with the cache
unchanged. -/
def lru_get [DecidableEq α] (c : LRUCache α β) (k : α) : Option β × LRUCache α β :=
  match assocFind k c.entries with
  | some v => (some v, ⟨c.capacity, c.entries.filter (fun p => decide (p.1 ≠ k)) ++ [(k, v)]⟩)
  | none => (none, c)

/-- Insert a list of key-value pairs in order (repeated `__setitem__`). -/
def lru_insert_all [DecidableEq α] (c : LRUCache α β) (ks : List (α × β)) : LRUCache α β :=
  ks.foldl (fun c p => lru_set c p.1 p.2) c

/-- Python's `\s` character class (the whitespace `str.strip` removes). -/
def isPySpace (c : Char) : Bool :=
  c = ' ' ∨ c = '\t' ∨ c = '\n' ∨ c = '\r' ∨ c = '\x0b' ∨ c = '\x0c'

/-- Python `str.strip()`. -/
def pyStrip (s : String) : String :=
  String.mk (((s.data.dropWhile isPySpace).reverse.dropWhile isPySpace).reverse)

/-- A news item as delivered to the sink (only the fields the reconciliation
logic reads: the source/date/snippet fields never influence the claims). -/
structure NewsItem where
  title : String
  url : String
deriving DecidableEq

/-- `DzenHistoryItem` from src/utils/models.py (one aggregator match
record). -/
structure DzenHistoryItem where
  url : String
  title : String
  added_at : String
  mosru_source_url : Option String := none
  mosru_title : Option String := none
  mosru_snippet : Option String := none
  match_type : Option String := none
  similarity_score : Option ℚ := none
  common_words : Option ℕ := none
  matched_keywords : List String := []
deriving DecidableEq

/-- The ambient inputs of one `fetch_dzen_news` pass (src/sources/dzen.py):
the embedding model, the keyword list from filters/keywords.yaml, the
similarity threshold, the date-filtered mos.ru reference pool, the set of
urls already in the Dzen history, the persisted analyzed-URL set (fixed for
the whole pass: it is only extended after the loop), and the timestamp. -/
structure DzenEnv where
  embed : String → Option (List ℚ)
  keywords : List String
  threshold : ℚ
  recent_mosru : List MosruItem
  dzen_history_urls : List String
  analyzed : String → Bool
  now_iso : String

/-- The mutable state of the card loop of `fetch_dzen_news`: the url
deduplication set, the normalized-title dictionary over the loaded history,
the loaded (and possibly rewritten) history, and the three output lists
(`filtered_dzen_news`, `filtered_dzen_history`, `filtered_out_urls`). -/
structure DzenState where
  url_set : List String
  title_map : List (String × DzenHistoryItem)
  history_raw : List DzenHistoryItem
  news : List NewsItem
  new_history : List DzenHistoryItem
  filtered_out : List String

/-- The dictionary normalized-title → history item built before the loop
(later items overwrite earlier ones, as in the Python dict). -/
def build_title_map (raw : List DzenHistoryItem) : List (String × DzenHistoryItem) :=
  raw.foldl (fun m i => mapInsert m (normalize_text_simple i.title) i) []

/-- The previously-claimed-source check of src/sources/dzen.py lines
128-140: some history record of `match_type='sbert'` already claims the same
mos.ru source url with a strictly higher similarity score (`best_score <
previous_score`, a missing score reading as 0). -/
def already_claimed (history : List DzenHistoryItem) (bm_url : String) (best_score : ℚ) : Bool :=
  history.any (fun item =>
    decide (item.match_type = some "sbert" ∧ item.mosru_source_url = some bm_url ∧
      best_score < item.similarity_score.getD 0))

/-- The history record appended on a semantic (`sbert`) match. -/
def sbert_history_record (url title now_iso : String) (bm : MosruItem) (best_score : ℚ) :
    DzenHistoryItem :=
  { url := url, title := pyStrip title, added_at := now_iso,
    mosru_source_url := some bm.url, mosru_title := some bm.title,
    mosru_snippet := some bm.snippet, match_type := some "sbert",
    similarity_score := some best_score,
    common_words := some (count_common_words title bm.title) }

/-- The history record appended on a keyword match. -/
def keywords_history_record (url title now_iso : String) (matched : List String) :
    DzenHistoryItem :=
  { url := url, title := pyStrip title, added_at := now_iso,
    match_type := some "keywords", matched_keywords := matched.take 5 }

/-- The keyword fallback of src/sources/dzen.py lines 170-199: normalized
keywords found as substrings of the normalized title accept the card as a
keyword match, otherwise the url is recorded as filtered out. -/
def dzen_keyword_branch (env : DzenEnv) (st : DzenState) (url title : String) : DzenState :=
  let title_norm := normalize_text_simple title
  let matched := (dedupKeep (env.keywords.map normalize_text_simple)).filter
    (fun kw => pyInStr kw title_norm)
  if matched ≠ [] then
    { st with
      news := st.news ++ [⟨pyStrip title, url⟩],
      new_history := st.new_history ++ [keywords_history_record url title env.now_iso matched] }
  else { st with filtered_out := st.filtered_out ++ [url] }

/-- One iteration of the card loop of `fetch_dzen_news`
(src/sources/dzen.py lines 84-199), in source order: skip empty or repeated
urls, skip already-analyzed urls, record the url, handle a normalized-title
rename in place, skip urls already in the history, try a semantic match
(with the previously-claimed-source check), finally fall back to keywords. -/
def dzen_process_card (env : DzenEnv) (st : DzenState) (card : String × String) : DzenState :=
  let url := card.1
  let title := card.2
  if url = "" ∨ title = "" ∨ url ∈ st.url_set then st
  else if env.analyzed url then st
  else
    let st1 : DzenState := { st with url_set := url :: st.url_set }
    let norm_title := normalize_text_simple title
    match assocFind norm_title st1.title_map with
    | some old_item =>
      if old_item.url ≠ url then
        let upd := { old_item with url := url, added_at := env.now_iso }
        { st1 with
          title_map := mapInsert st1.title_map norm_title upd,
          history_raw := st1.history_raw.map
            (fun i => if normalize_text_simple i.title ≠ norm_title then i else upd) }
      else st1
    | none =>
      if url ∈ env.dzen_history_urls then st1
      else
        let fb := find_best_match env.embed env.keywords title env.recent_mosru
        match fb.1 with
        | some best_mosru =>
          if env.threshold ≤ fb.2 then
            if already_claimed st1.history_raw best_mosru.url fb.2 then
              { st1 with filtered_out := st1.filtered_out ++ [url] }
            else
              { st1 with
                news := st1.news ++ [⟨pyStrip title, url⟩],
                new_history := st1.new_history ++
                  [sbert_history_record url title env.now_iso best_mosru fb.2] }
          else dzen_keyword_branch env st1 url title
        | none => dzen_keyword_branch env st1 url title

/-- The initial loop state of a `fetch_dzen_news` pass over the loaded
history. -/
def dzen_init_state (history0 : List DzenHistoryItem) : DzenState :=
  { url_set := [], title_map := build_title_map history0, history_raw := history0,
    news := [], new_history := [], filtered_out := [] }

/-- `fetch_dzen_news` (src/sources/dzen.py) as a function of the scraped
cards (url-title pairs, capped at `max_items = 20`) and the loaded Dzen
history; scraping itself is the excluded data source. -/
def fetch_dzen_news (env : DzenEnv) (cards : List (String × String))
    (history0 : List DzenHistoryItem) : DzenState :=
  (cards.take 20).foldl (dzen_process_card env) (dzen_init_state history0)

/-- `MosruHistoryItem` from src/utils/models.py. -/
structure MosruHistoryItem where
  url : String
  title : String
  snippet : String
  added_at : String
  in_dzen : Bool
deriving DecidableEq

/-- The outputs of one reconciliation pass of `fetch_and_send_news`
(src/scheduler.py lines 128-169): the delivery sets, the new history items,
and the histories as persisted at the end of the pass. -/
structure ReconcileResult where
  new_mosru_news : List NewsItem
  new_dzen_news : List NewsItem
  new_mosru_history : List MosruHistoryItem
  new_dzen_history : List DzenHistoryItem
  mosru_history_saved : List MosruHistoryItem
  dzen_history_saved : List DzenHistoryItem

/-- The reconciliation of `fetch_and_send_news` (src/scheduler.py lines
128-169) with the two fetches abstracted as inputs: filter fetched items
against the persisted url sets, extend the histories with the survivors,
flip `in_dzen` on referenced mos.ru items, and persist only on change
(persisting nothing leaves the previous file contents). -/
def fetch_and_send_news (mosru_history : List MosruHistoryItem)
    (dzen_history : List DzenHistoryItem) (mosru_news : List NewsItem)
    (mosru_new_items : List MosruHistoryItem) (dzen_news : List NewsItem)
    (dzen_new_items : List DzenHistoryItem) : ReconcileResult :=
  let mosru_urls := mosru_history.map MosruHistoryItem.url
  let dzen_urls := dzen_history.map DzenHistoryItem.url
  let new_mosru_news := mosru_news.filter (fun n => decide (n.url ∉ mosru_urls))
  let new_mosru_history := mosru_new_items.filter (fun i => decide (i.url ∉ mosru_urls))
  let mosru_history1 := mosru_history ++ new_mosru_history
  let new_dzen_news := dzen_news.filter (fun n => decide (n.url ∉ dzen_urls))
  let dzen_mosru_urls :=
    (dzen_new_items.filterMap DzenHistoryItem.mosru_source_url).filter (fun u => decide (u ≠ ""))
  let mosru_updated := mosru_history1.any (fun i => decide (i.url ∈ dzen_mosru_urls) && !i.in_dzen)
  let mosru_history2 := mosru_history1.map
    (fun i => if i.url ∈ dzen_mosru_urls ∧ i.in_dzen = false then { i with in_dzen := true } else i)
  let new_dzen_history := dzen_new_items.filter (fun i => decide (i.url ∉ dzen_urls))
  let dzen_history2 := dzen_history ++ new_dzen_history
  { new_mosru_news := new_mosru_news
    new_dzen_news := new_dzen_news
    new_mosru_history := new_mosru_history
    new_dzen_history := new_dzen_history
    mosru_history_saved := if new_mosru_history ≠ [] ∨ mosru_updated then mosru_history2
      else mosru_history
    dzen_history_saved := if new_dzen_history ≠ [] then dzen_history2 else dzen_history }

/-- `MAX_ANALYZED_URLS` from src/storage/s3.py. -/
def MAX_ANALYZED_URLS : ℕ := 5000

/-- `S3Storage._trim_analyzed_urls_if_needed` from src/storage/s3.py:
`self.analyzed_urls` is a Python `set`, so `list(self.analyzed_urls)` yields
its elements in an arbitrary hash-determined enumeration order, passed here
as `enum`; the code keeps `urls_list[-MAX_ANALYZED_URLS:]`, the last
`MAX_ANALYZED_URLS` elements of that enumeration. -/
def trim_analyzed_urls_if_needed {α : Type} (enum : List α) : List α :=
  if MAX_ANALYZED_URLS < enum.length then enum.drop (enum.length - MAX_ANALYZED_URLS) else enum

/-- Concrete embedding model for the C1 scenario: the candidate "bbb" gets
vector `[4, 3]` (cosine 4/5 against the reference), every other text gets
`[1, 0]`. -/
def c1_embed : String → Option (List ℚ) :=
  fun t => if t = "bbb" then some [4, 3] else some [1, 0]

/-- The single mos.ru reference item of the C1 scenario. -/
def c1_mosru : MosruItem := { url := "m", title := "ccc", snippet := "" }

/-- The environment of the C1 scenario: default threshold 0.79, no
keywords, nothing analyzed, empty history url set. -/
def c1_env : DzenEnv :=
  { embed := c1_embed, keywords := [], threshold := 79 / 100, recent_mosru := [c1_mosru],
    dzen_history_urls := [], analyzed := fun _ => false, now_iso := "T" }

/-- A persisted semantic record claiming `c1_mosru` at score 1. -/
def c1_prior : DzenHistoryItem := sbert_history_record "u0" "zzz" "T" c1_mosru 1

/-- Embedding model for the C2 counterexample: the candidate "aaa" gets
`[1]`, everything else `[-1]`, so the cosine is negative. -/
def c2_embed : String → Option (List ℚ) :=
  fun t => if t = "aaa" then some [1] else some [-1]

/-- Reference item of the C2 counterexample. -/
def c2_item : MosruItem := { url := "m", title := "bbb", snippet := "" }

/-- Constant embedding model for the C3 witness. -/
def c3_embed : String → Option (List ℚ) := fun _ => some [1]

/-- Reference item of the C3 witness. -/
def c3_item : MosruItem := { url := "m", title := "ccc", snippet := "" }

/-- Embedding model for the C8 witness: fails (raises) exactly on the text
"x". -/
def c8_embed : String → Option (List ℚ) :=
  fun t => if t = "x" then none else some [1]

/-- Reference item whose embedding computation fails under `c8_embed`. -/
def c8_bad : MosruItem := { url := "b", title := "x", snippet := "" }

/-- Reference item whose embedding computation succeeds under `c8_embed`. -/
def c8_good : MosruItem := { url := "m", title := "ccc", snippet := "" }

/-- Always-failing embedding model for the C10 witness. -/
def c10_embed : String → Option (List ℚ) := fun _ => none

/-- Reference item of the C10 witness. -/
def c10_item : MosruItem := { url := "m", title := "t", snippet := "" }

/-- Existing history record of the C6 witness. -/
def c6_rec : DzenHistoryItem :=
  { url := "A", title := "X y", added_at := "T0", match_type := some "keywords",
    matched_keywords := ["k"] }

/-- Environment of the C6 witness (the rename path never reaches the
scorer, so the embedding model is irrelevant there). -/
def c6_env : DzenEnv :=
  { embed := fun _ => none, keywords := [], threshold := 79 / 100, recent_mosru := [],
    dzen_history_urls := [], analyzed := fun _ => false, now_iso := "T1" }


/-! ## Helper lemmas -/

/-- Characterization of the keep-the-best fold: either no element strictly
beats the accumulator, which is returned unchanged, or the result is the
first element attaining the maximum of the scores, which strictly beats the
accumulator. -/
theorem best_step_foldl_char {α : Type} (f : α → ℚ) :
    ∀ (l : List α) (acc : Option α × ℚ),
      (l.foldl (best_step f) acc = acc ∧ ∀ i ∈ l, f i ≤ acc.2) ∨
      (∃ k : Fin l.length,
        l.foldl (best_step f) acc = (some (l.get k), f (l.get k)) ∧
        acc.2 < f (l.get k) ∧
        (∀ j : Fin l.length, f (l.get j) ≤ f (l.get k)) ∧
        (∀ j : Fin l.length, j.1 < k.1 → f (l.get j) < f (l.get k))) := by
  intro l
  induction l with
  | nil => intro acc; left; exact ⟨rfl, by simp⟩
  | cons x xs ih =>
    intro acc
    rw [List.foldl_cons]
    by_cases hx : acc.2 < f x
    · have hstep : best_step f acc x = (some x, f x) := by rw [best_step, if_pos hx]
      rw [hstep]
      rcases ih (some x, f x) with ⟨heq, hall⟩ | ⟨k, heq, hgt, hmax, hfirst⟩
      · right
        refine ⟨⟨0, Nat.succ_pos _⟩, by rw [heq]; rfl, hx, ?_, ?_⟩
        · intro j
          obtain ⟨jv, hj⟩ := j
          cases jv with
          | zero => exact le_refl _
          | succ n => exact hall _ (List.get_mem xs n (Nat.lt_of_succ_lt_succ hj))
        · intro j hj
          exact absurd hj (Nat.not_lt_zero _)
      · right
        refine ⟨⟨k.1 + 1, Nat.succ_lt_succ k.2⟩, by rw [heq]; rfl, lt_trans hx hgt, ?_, ?_⟩
        · intro j
          obtain ⟨jv, hj⟩ := j
          cases jv with
          | zero => exact le_of_lt hgt
          | succ n => exact hmax ⟨n, Nat.lt_of_succ_lt_succ hj⟩
        · intro j hjk
          obtain ⟨jv, hj⟩ := j
          cases jv with
          | zero => exact hgt
          | succ n => exact hfirst ⟨n, Nat.lt_of_succ_lt_succ hj⟩ (Nat.lt_of_succ_lt_succ hjk)
    · have hstep : best_step f acc x = acc := by rw [best_step, if_neg hx]
      rw [hstep]
      rcases ih acc with ⟨heq, hall⟩ | ⟨k, heq, hgt, hmax, hfirst⟩
      · left
        refine ⟨heq, ?_⟩
        intro i hi
        rcases List.mem_cons.mp hi with h | h
        · subst h; exact not_lt.mp hx
        · exact hall i h
      · right
        refine ⟨⟨k.1 + 1, Nat.succ_lt_succ k.2⟩, by rw [heq]; rfl, hgt, ?_, ?_⟩
        · intro j
          obtain ⟨jv, hj⟩ := j
          cases jv with
          | zero => exact le_of_lt (lt_of_le_of_lt (not_lt.mp hx) hgt)
          | succ n => exact hmax ⟨n, Nat.lt_of_succ_lt_succ hj⟩
        · intro j hjk
          obtain ⟨jv, hj⟩ := j
          cases jv with
          | zero => exact lt_of_le_of_lt (not_lt.mp hx) hgt
          | succ n => exact hfirst ⟨n, Nat.lt_of_succ_lt_succ hj⟩ (Nat.lt_of_succ_lt_succ hjk)

/-- The running best score of the fold never drops below its starting
value, in particular it stays nonnegative. -/
theorem best_step_foldl_snd_nonneg {α : Type} (f : α → ℚ) :
    ∀ (l : List α) (acc : Option α × ℚ), 0 ≤ acc.2 → 0 ≤ (l.foldl (best_step f) acc).2 := by
  intro l
  induction l with
  | nil => intro acc h; exact h
  | cons x xs ih =>
    intro acc h
    rw [List.foldl_cons]
    apply ih
    rw [best_step]
    split
    next hx => exact le_of_lt (lt_of_le_of_lt h hx)
    next => exact h

/-! ## Claims -/

/-- C9: the analyzed-URL set is trimmed to at most `MAX_ANALYZED_URLS`
elements (last conjunct), but `analyzed_urls` is an unordered Python set, so
the trimming keeps the last `MAX_ANALYZED_URLS` elements of an arbitrary
hash-determined enumeration, not the most recently added ones: under the
enumeration that lists the newest url 5000 first and the 5000 older urls
0..4999 after it, the newest url is the one removed and every oldest url is
kept, contradicting trimmed-oldest-first. -/
theorem claim9_trim_not_oldest_first :
    trim_analyzed_urls_if_needed ((5000 : ℕ) :: List.range 5000) = List.range 5000 ∧
    (5000 : ℕ) ∉ trim_analyzed_urls_if_needed ((5000 : ℕ) :: List.range 5000) ∧
    (0 : ℕ) ∈ trim_analyzed_urls_if_needed ((5000 : ℕ) :: List.range 5000) ∧
    ∀ (enum : List ℕ), (trim_analyzed_urls_if_needed enum).length ≤ MAX_ANALYZED_URLS := by
  have h1 : trim_analyzed_urls_if_needed ((5000 : ℕ) :: List.range 5000) = List.range 5000 := by
    rw [trim_analyzed_urls_if_needed,
      if_pos (by simp [MAX_ANALYZED_URLS, List.length_range])]
    simp [MAX_ANALYZED_URLS, List.length_range, List.drop_one]
  refine ⟨h1, ?_, ?_, ?_⟩
  · rw [h1]; simp [List.mem_range]
  · rw [h1]; simp [List.mem_range]
  · intro enum
    rw [trim_analyzed_urls_if_needed]
    split
    next h => rw [List.length_drop]; omega
    next h => omega

/-- C3: the scorer returns exactly `min (base * (1 + bonus)) 1`, where
`base` is the average of the two cosine similarities (candidate against
reference title and against reference title+snippet) and the bonus is given
by the spec's mutually exclusive priority rules (`bonus_spec`). -/
theorem claim3_bonus_priority (embed : String → Option (List ℚ)) (keywords : List String)
    (dzen_title : String) (item : MosruItem) (de : List ℚ) (me : MosruEmbeddings)
    (h1 : embed dzen_title = some de) (h2 : get_mosru_embeddings embed item = some me) :
    calculate_similarity_sbert embed keywords dzen_title item =
      min (((cos_sim de me.title + cos_sim de me.title_snippet) / 2) *
        (1 + bonus_spec (count_common_words dzen_title item.title)
          (has_keyword_phrase_in_both keywords dzen_title item.title)
          ((cos_sim de me.title + cos_sim de me.title_snippet) / 2))) 1 := by
  simp only [calculate_similarity_sbert, h1, h2, bonus_spec]

/-- Witness for C3 at a concrete embedding model and reference item. -/
theorem claim3_witness :
    c3_embed "aaa" = some [1] ∧
    get_mosru_embeddings c3_embed c3_item = some ⟨[1], [1], [0]⟩ ∧
    calculate_similarity_sbert c3_embed [] "aaa" c3_item =
      min (((cos_sim [1] [1] + cos_sim [1] [1]) / 2) *
        (1 + bonus_spec (count_common_words "aaa" "ccc")
          (has_keyword_phrase_in_both [] "aaa" "ccc")
          ((cos_sim [1] [1] + cos_sim [1] [1]) / 2))) 1 :=
  ⟨rfl, rfl, claim3_bonus_priority c3_embed [] "aaa" c3_item [1] ⟨[1], [1], [0]⟩ rfl rfl⟩

/-- C8: a failed embedding computation (of the candidate or of the
reference) makes the scorer return 0 instead of propagating, and such a
zero-scored comparison leaves the result of `find_best_match` over the rest
of the pool unchanged, so one failure cannot abort the matching pass. -/
theorem claim8_error_zero :
    (∀ (embed : String → Option (List ℚ)) (keywords : List String) (t : String)
      (item : MosruItem), embed t = none →
      calculate_similarity_sbert embed keywords t item = 0) ∧
    (∀ (embed : String → Option (List ℚ)) (keywords : List String) (t : String)
      (item : MosruItem), get_mosru_embeddings embed item = none →
      calculate_similarity_sbert embed keywords t item = 0) ∧
    (∀ (embed : String → Option (List ℚ)) (keywords : List String) (t : String)
      (l1 l2 : List MosruItem) (bad : MosruItem),
      get_mosru_embeddings embed bad = none →
      find_best_match embed keywords t (l1 ++ bad :: l2) =
        find_best_match embed keywords t (l1 ++ l2)) := by
  refine ⟨?_, ?_, ?_⟩
  · intro embed keywords t item h
    simp [calculate_similarity_sbert, h]
  · intro embed keywords t item h
    cases h3 : embed t <;> simp [calculate_similarity_sbert, h3, h]
  · intro embed keywords t l1 l2 bad hbad
    have hscore : calculate_similarity_sbert embed keywords t bad = 0 := by
      cases h3 : embed t <;> simp [calculate_similarity_sbert, h3, hbad]
    have hnn : 0 ≤ (l1.foldl (best_step (calculate_similarity_sbert embed keywords t))
        ((none : Option MosruItem), (0 : ℚ))).2 :=
      best_step_foldl_snd_nonneg _ l1 (none, 0) le_rfl
    rw [find_best_match, find_best_match, fbm_step, List.foldl_append, List.foldl_append,
      List.foldl_cons]
    congr 1
    rw [best_step, hscore, if_neg (not_lt.mpr hnn)]

/-- Witness for C8: `c8_embed` fails exactly on the text "x". -/
theorem claim8_witness :
    c8_embed "x" = none ∧
    get_mosru_embeddings c8_embed c8_bad = none ∧
    calculate_similarity_sbert c8_embed [] "x" c8_good = 0 ∧
    calculate_similarity_sbert c8_embed [] "t" c8_bad = 0 ∧
    find_best_match c8_embed [] "t" ([c8_good] ++ c8_bad :: []) =
      find_best_match c8_embed [] "t" ([c8_good] ++ []) :=
  ⟨rfl, rfl,
    claim8_error_zero.1 c8_embed [] "x" c8_good rfl,
    claim8_error_zero.2.1 c8_embed [] "t" c8_bad rfl,
    claim8_error_zero.2.2 c8_embed [] "t" [c8_good] [] c8_bad rfl⟩

/-- C10: `find_best_match` on an empty pool returns `(none, 0)`; more
generally, since the running best starts at 0 and is only replaced on a
strictly greater score, it returns `(none, 0)` whenever every reference
scores at most 0 — a reference scoring exactly 0 is never returned. -/
theorem claim10_empty_pool (embed : String → Option (List ℚ)) (keywords : List String)
    (t : String) :
    find_best_match embed keywords t [] = (none, 0) ∧
    ∀ (pool : List MosruItem),
      (∀ i ∈ pool, calculate_similarity_sbert embed keywords t i ≤ 0) →
      find_best_match embed keywords t pool = (none, 0) := by
  constructor
  · rfl
  · intro pool h
    rw [find_best_match, fbm_step]
    rcases best_step_foldl_char (calculate_similarity_sbert embed keywords t) pool (none, 0) with
      ⟨heq, _⟩ | ⟨k, _, hgt, _, _⟩
    · exact heq
    · exact absurd (lt_of_lt_of_le hgt (h _ (List.get_mem pool k.1 k.2))) (lt_irrefl 0)

/-- Witness for C10: an always-failing embedding model scores every
reference 0, and the matcher returns `(none, 0)` on a nonempty pool. -/
theorem claim10_witness :
    (∀ i ∈ [c10_item], calculate_similarity_sbert c10_embed [] "q" i ≤ 0) ∧
    find_best_match c10_embed [] "q" [c10_item] = (none, 0) := by
  have h : ∀ i ∈ [c10_item], calculate_similarity_sbert c10_embed [] "q" i ≤ 0 := by
    intro i hi
    rw [List.mem_singleton] at hi
    subst hi
    exact le_of_eq rfl
  exact ⟨h, (claim10_empty_pool c10_embed [] "q").2 [c10_item] h⟩

/-- C2 counterexample: with embedding vectors of negative cosine (candidate
`[1]`, reference `[-1]`) the scorer returns a strictly negative value, so
its range is not contained in `[0, 1]` for arbitrary black-box vectors. -/
theorem claim2_counterexample :
    calculate_similarity_sbert c2_embed [] "aaa" c2_item < 0 := by
  have h1 : c2_embed "aaa" = some [1] := rfl
  have h2 : get_mosru_embeddings c2_embed { url := "m", title := "bbb", snippet := "" } =
      some ⟨[-1], [-1], [0]⟩ := rfl
  have hc : count_common_words "aaa" "bbb" = 0 := by decide
  have hk : has_keyword_phrase_in_both [] "aaa" "bbb" = false := rfl
  have hcos : cos_sim [(1 : ℚ)] [-1] = -(1000000000 / 1000000001) := by
    norm_num [cos_sim, vnorm, qsqrt, dotQ, isqrt, isqrtAux]
  simp only [calculate_similarity_sbert, c2_item, h1, h2, hc, hk, Bool.false_eq_true, if_false]
  rw [if_neg (by norm_num : ¬ (3 : ℕ) ≤ 0), hcos]
  rw [show ((-(1000000000 / 1000000001 : ℚ)) + -(1000000000 / 1000000001)) / 2 * (1 + 0) =
    -(1000000000 / 1000000001) by ring]
  rw [min_eq_left (by norm_num)]
  norm_num

/-- C2 amended: the scorer's result is always at most 1 (the `min` cap), and
it is nonnegative — hence in `[0, 1]` — whenever the averaged cosine
`base_score` is nonnegative; for adversarial vectors with negative cosine it
can be negative (see the counterexample). -/
theorem claim2_amended_range (embed : String → Option (List ℚ)) (keywords : List String)
    (t : String) (item : MosruItem) :
    calculate_similarity_sbert embed keywords t item ≤ 1 ∧
    (0 ≤ mosru_base_score embed t item → 0 ≤ calculate_similarity_sbert embed keywords t item) := by
  cases h1 : embed t with
  | none =>
    simp only [calculate_similarity_sbert, mosru_base_score, h1]
    exact ⟨by norm_num, fun _ => le_rfl⟩
  | some de =>
    cases h2 : get_mosru_embeddings embed item with
    | none =>
      simp only [calculate_similarity_sbert, mosru_base_score, h1, h2]
      exact ⟨by norm_num, fun _ => le_rfl⟩
    | some me =>
      simp only [calculate_similarity_sbert, mosru_base_score, h1, h2]
      refine ⟨min_le_right _ _, fun hb => le_min (mul_nonneg hb ?_) (by norm_num)⟩
      split_ifs <;> norm_num

/-- Witness for C2 amended: a nonnegative base score gives a result in
`[0, 1]`. -/
theorem claim2_witness :
    0 ≤ mosru_base_score c3_embed "aaa" c3_item ∧
    calculate_similarity_sbert c3_embed [] "aaa" c3_item ≤ 1 ∧
    0 ≤ calculate_similarity_sbert c3_embed [] "aaa" c3_item := by
  have hb : 0 ≤ mosru_base_score c3_embed "aaa" c3_item := by
    have h1 : c3_embed "aaa" = some [1] := rfl
    have h2 : get_mosru_embeddings c3_embed c3_item = some ⟨[1], [1], [0]⟩ := rfl
    simp only [mosru_base_score, h1, h2]
    norm_num [cos_sim, vnorm, qsqrt, dotQ, isqrt, isqrtAux]
  exact ⟨hb, (claim2_amended_range c3_embed [] "aaa" c3_item).1,
    (claim2_amended_range c3_embed [] "aaa" c3_item).2 hb⟩

/-- A missing key is not found by association lookup. -/
theorem assocFind_eq_none [DecidableEq α] (k : α) (l : List (α × β))
    (h : k ∉ l.map Prod.fst) : assocFind k l = none := by
  induction l with
  | nil => rfl
  | cons q qs ih =>
    have hne : q.1 ≠ k := fun he => h (by rw [List.map_cons, he]; exact List.mem_cons_self _ _)
    rw [assocFind, if_neg hne]
    exact ih (fun hm => h (by rw [List.map_cons]; exact List.mem_cons_of_mem _ hm))

/-- With pairwise distinct keys, association lookup finds the stored value
of every member. -/
theorem assocFind_mem_nodup [DecidableEq α] (l : List (α × β))
    (hnd : (l.map Prod.fst).Nodup) (p : α × β) (hp : p ∈ l) : assocFind p.1 l = some p.2 := by
  induction l with
  | nil => cases hp
  | cons q qs ih =>
    rcases List.mem_cons.mp hp with h | h
    · subst h; rw [assocFind, if_pos rfl]
    · have hnd' : (qs.map Prod.fst).Nodup := by
        rw [List.map_cons] at hnd; exact hnd.of_cons
      have hne : q.1 ≠ p.1 := by
        intro he
        rw [List.map_cons] at hnd
        exact (List.nodup_cons.mp hnd).1 (by rw [he]; exact List.mem_map_of_mem Prod.fst h)
      rw [assocFind, if_neg hne]
      exact ih hnd' h

/-- `__setitem__` never changes the capacity. -/
theorem lru_set_capacity [DecidableEq α] (c : LRUCache α β) (k : α) (v : β) :
    (lru_set c k v).capacity = c.capacity := by
  simp only [lru_set]
  split <;> rfl

/-- Repeated insertion never changes the capacity. -/
theorem lru_insert_all_capacity [DecidableEq α] (ks : List (α × β)) :
    ∀ (c : LRUCache α β), (lru_insert_all c ks).capacity = c.capacity := by
  induction ks with
  | nil => intro c; rfl
  | cons p ps ih =>
    intro c
    rw [lru_insert_all, List.foldl_cons, ← lru_insert_all]
    rw [ih (lru_set c p.1 p.2), lru_set_capacity]

/-- Inserting one pair after a full prefix: the conditional eviction on the
list level produces exactly the last `cap` elements of the extended list. -/
theorem drop_concat_evict {γ : Type} (cap : ℕ) (ks : List γ) (p : γ) :
    (if cap < (ks.drop (ks.length - cap) ++ [p]).length
      then (ks.drop (ks.length - cap) ++ [p]).tail
      else ks.drop (ks.length - cap) ++ [p]) =
    (ks ++ [p]).drop ((ks ++ [p]).length - cap) := by
  by_cases hle : ks.length < cap
  · rw [if_neg (by simp only [List.length_append, List.length_drop,
      List.length_singleton]; omega)]
    have h0 : ks.length - cap = 0 := by omega
    have h1 : (ks ++ [p]).length - cap = 0 := by
      simp only [List.length_append, List.length_singleton]; omega
    rw [h0, h1, List.drop_zero, List.drop_zero]
  · push_neg at hle
    rw [if_pos (by simp only [List.length_append, List.length_drop,
      List.length_singleton]; omega)]
    rcases Nat.eq_zero_or_pos cap with h0 | hpos
    · subst h0
      rw [Nat.sub_zero, List.drop_length, List.nil_append, List.tail_cons]
      rw [List.drop_eq_nil_of_le (by omega)]
    · have hne : ks.drop (ks.length - cap) ≠ [] := by
        intro h
        have hl := congrArg List.length h
        rw [List.length_drop, List.length_nil] at hl
        omega
      obtain ⟨a, as, hd⟩ := List.exists_cons_of_ne_nil hne
      rw [hd, List.cons_append, List.tail_cons]
      have hlen2 : (ks ++ [p]).length - cap = 1 + (ks.length - cap) := by
        simp only [List.length_append, List.length_singleton]; omega
      rw [hlen2]
      rw [List.drop_append_of_le_length (by omega)]
      have htl : ks.drop (1 + (ks.length - cap)) = as := by
        rw [show 1 + (ks.length - cap) = (ks.length - cap) + 1 from by omega]
        rw [← List.tail_drop, hd, List.tail_cons]
      rw [htl]

/-- `lru_insert_all` over a concatenation with a singleton. -/
theorem lru_insert_all_concat [DecidableEq α] (c : LRUCache α β) (ks : List (α × β))
    (p : α × β) : lru_insert_all c (ks ++ [p]) = lru_set (lru_insert_all c ks) p.1 p.2 := by
  rw [lru_insert_all, lru_insert_all, List.foldl_append, List.foldl_cons, List.foldl_nil]

/-- Filling an empty cache of capacity `cap` with distinct keys keeps
exactly the last `cap` pairs, in insertion order. -/
theorem lru_fill [DecidableEq α] (cap : ℕ) (ks : List (α × β))
    (hnd : (ks.map Prod.fst).Nodup) :
    (lru_insert_all (⟨cap, []⟩ : LRUCache α β) ks).entries = ks.drop (ks.length - cap) := by
  induction ks using List.reverseRecOn with
  | nil => simp [lru_insert_all]
  | append_singleton ks p ih =>
    have hnd' : (ks.map Prod.fst).Nodup := by
      rw [List.map_append] at hnd; exact (List.nodup_append.mp hnd).1
    have hnotin : p.1 ∉ ks.map Prod.fst := by
      rw [List.map_append] at hnd
      intro hmem
      exact (List.nodup_append.mp hnd).2.2 hmem (by simp)
    have IH := ih hnd'
    rw [lru_insert_all_concat]
    have hcap : (lru_insert_all (⟨cap, []⟩ : LRUCache α β) ks).capacity = cap :=
      lru_insert_all_capacity ks _
    have hfilter : (ks.drop (ks.length - cap)).filter (fun q => decide (q.1 ≠ p.1)) =
        ks.drop (ks.length - cap) := by
      apply List.filter_eq_self.mpr
      intro a ha
      have hmem : a ∈ ks := List.drop_subset _ ks ha
      exact decide_eq_true (fun he => hnotin (he ▸ List.mem_map_of_mem Prod.fst hmem))
    simp only [lru_set, hcap, IH, hfilter]
    rw [apply_ite LRUCache.entries]
    dsimp only
    exact drop_concat_evict cap ks p

/-- Inserting a key (fresh or present) makes it the most recently used
entry, for any cache of positive capacity. -/
theorem lru_set_getLast [DecidableEq α] (c : LRUCache α β) (k : α) (v : β)
    (hcap : 0 < c.capacity) : (lru_set c k v).entries.getLast? = some (k, v) := by
  simp only [lru_set]
  rw [apply_ite LRUCache.entries]
  dsimp only
  cases hF : c.entries.filter (fun p => decide (p.1 ≠ k)) with
  | nil =>
    rw [if_neg (by simp only [List.nil_append, List.length_singleton]; omega)]
    rfl
  | cons a as =>
    by_cases hlen : c.capacity < ((a :: as) ++ [(k, v)]).length
    · rw [if_pos hlen]
      show (as ++ [(k, v)]).getLast? = some (k, v)
      exact List.getLast?_concat _
    · rw [if_neg hlen]
      show ((a :: as) ++ [(k, v)]).getLast? = some (k, v)
      exact List.getLast?_concat _

/-- A read of a present key returns its value and makes it the most
recently used entry. -/
theorem lru_get_spec [DecidableEq α] (c : LRUCache α β) (k : α) (v : β)
    (h : assocFind k c.entries = some v) :
    (lru_get c k).1 = some v ∧ ((lru_get c k).2.entries).getLast? = some (k, v) := by
  constructor
  · simp [lru_get, h]
  · simp only [lru_get, h]
    exact List.getLast?_concat _

/-- C4: filling an empty cache of capacity `cap` with `cap + j` distinct
keys leaves exactly `cap` entries: the last `cap` insertions in order, the
first `j` (least recently touched) keys evicted and unfindable, the
survivors still mapped to their values; moreover any insertion and any read
of a present key makes that key the most recently used entry (the eviction
victim is always the front entry, so most recently used is evicted last). -/
theorem claim4_cache_bound {α β : Type} [DecidableEq α] :
    (∀ (cap j : ℕ) (ks : List (α × β)), (ks.map Prod.fst).Nodup → ks.length = cap + j →
      (lru_insert_all (⟨cap, []⟩ : LRUCache α β) ks).entries = ks.drop j ∧
      (lru_insert_all (⟨cap, []⟩ : LRUCache α β) ks).entries.length = cap ∧
      (∀ p ∈ ks.take j,
        assocFind p.1 (lru_insert_all (⟨cap, []⟩ : LRUCache α β) ks).entries = none) ∧
      (∀ p ∈ ks.drop j,
        assocFind p.1 (lru_insert_all (⟨cap, []⟩ : LRUCache α β) ks).entries = some p.2)) ∧
    (∀ (c : LRUCache α β) (k : α) (v : β), 0 < c.capacity →
      ((lru_set c k v).entries).getLast? = some (k, v)) ∧
    (∀ (c : LRUCache α β) (k : α) (v : β), assocFind k c.entries = some v →
      (lru_get c k).1 = some v ∧ ((lru_get c k).2.entries).getLast? = some (k, v)) := by
  refine ⟨?_, lru_set_getLast, lru_get_spec⟩
  intro cap j ks hnd hlen
  have hj : ks.length - cap = j := by omega
  have hE : (lru_insert_all (⟨cap, []⟩ : LRUCache α β) ks).entries = ks.drop j := by
    rw [lru_fill cap ks hnd, hj]
  have hsplit := hnd
  rw [← List.take_append_drop j ks, List.map_append] at hsplit
  refine ⟨hE, ?_, ?_, ?_⟩
  · rw [hE, List.length_drop]; omega
  · intro p hp
    rw [hE]
    apply assocFind_eq_none
    exact fun hmem => (List.nodup_append.mp hsplit).2.2 (List.mem_map_of_mem Prod.fst hp) hmem
  · intro p hp
    rw [hE]
    exact assocFind_mem_nodup _ (List.nodup_append.mp hsplit).2.1 p hp

/-- Witness for C4: capacity 2, three distinct keys inserted, the oldest
evicted; plus concrete insert/read recency checks. -/
theorem claim4_witness :
    (([("a", (1 : ℕ)), ("b", 2), ("c", 3)].map Prod.fst).Nodup ∧
      [("a", (1 : ℕ)), ("b", 2), ("c", 3)].length = 2 + 1 ∧
      0 < (LRUCache.mk 2 [("a", (1 : ℕ)), ("b", 2)]).capacity ∧
      assocFind "a" (LRUCache.mk 2 [("a", (1 : ℕ)), ("b", 2)]).entries = some 1) ∧
    (lru_insert_all (⟨2, []⟩ : LRUCache String ℕ) [("a", 1), ("b", 2), ("c", 3)]).entries =
      [("a", (1 : ℕ)), ("b", 2), ("c", 3)].drop 1 ∧
    (lru_insert_all (⟨2, []⟩ : LRUCache String ℕ) [("a", 1), ("b", 2), ("c", 3)]).entries.length
      = 2 ∧
    (∀ p ∈ [("a", (1 : ℕ)), ("b", 2), ("c", 3)].take 1,
      assocFind p.1
        (lru_insert_all (⟨2, []⟩ : LRUCache String ℕ) [("a", 1), ("b", 2), ("c", 3)]).entries =
        none) ∧
    (∀ p ∈ [("a", (1 : ℕ)), ("b", 2), ("c", 3)].drop 1,
      assocFind p.1
        (lru_insert_all (⟨2, []⟩ : LRUCache String ℕ) [("a", 1), ("b", 2), ("c", 3)]).entries =
        some p.2) ∧
    ((lru_set (LRUCache.mk 2 [("a", (1 : ℕ)), ("b", 2)]) "a" 9).entries).getLast? =
      some ("a", 9) ∧
    (lru_get (LRUCache.mk 2 [("a", (1 : ℕ)), ("b", 2)]) "a").1 = some 1 ∧
    ((lru_get (LRUCache.mk 2 [("a", (1 : ℕ)), ("b", 2)]) "a").2.entries).getLast? =
      some ("a", 1) := by
  have h1 := (@claim4_cache_bound String ℕ _).1 2 1 [("a", 1), ("b", 2), ("c", 3)]
    (by decide) (by decide)
  have h2 := (@claim4_cache_bound String ℕ _).2.1 (LRUCache.mk 2 [("a", (1 : ℕ)), ("b", 2)])
    "a" 9 (by decide)
  have h3 := (@claim4_cache_bound String ℕ _).2.2 (LRUCache.mk 2 [("a", (1 : ℕ)), ("b", 2)])
    "a" 1 (by decide)
  exact ⟨⟨by decide, by decide, by decide, by decide⟩,
    h1.1, h1.2.1, h1.2.2.1, h1.2.2.2, h2, h3.1, h3.2⟩

/-- Evaluation of one card-loop step on a fresh candidate: nonempty url and
title, url not yet seen in this pass, not in the analyzed set, normalized
title absent from the title dictionary, url not in the history url set —
the step reduces to the semantic-match decision followed by the keyword
fallback. -/
theorem dzen_process_card_fresh (env : DzenEnv) (st : DzenState) (url title : String)
    (h1 : url ≠ "") (h2 : title ≠ "") (h3 : url ∉ st.url_set)
    (h4 : env.analyzed url = false)
    (h5 : assocFind (normalize_text_simple title) st.title_map = none)
    (h6 : url ∉ env.dzen_history_urls) :
    dzen_process_card env st (url, title) =
      match (find_best_match env.embed env.keywords title env.recent_mosru).1 with
      | some best_mosru =>
        if env.threshold ≤ (find_best_match env.embed env.keywords title env.recent_mosru).2 then
          if already_claimed st.history_raw best_mosru.url
              (find_best_match env.embed env.keywords title env.recent_mosru).2 then
            { st with url_set := url :: st.url_set, filtered_out := st.filtered_out ++ [url] }
          else
            { st with
              url_set := url :: st.url_set,
              news := st.news ++ [⟨pyStrip title, url⟩],
              new_history := st.new_history ++
                [sbert_history_record url title env.now_iso best_mosru
                  (find_best_match env.embed env.keywords title env.recent_mosru).2] }
        else dzen_keyword_branch env { st with url_set := url :: st.url_set } url title
      | none => dzen_keyword_branch env { st with url_set := url :: st.url_set } url title := by
  simp only [dzen_process_card]
  rw [if_neg (show ¬ (url = "" ∨ title = "" ∨ url ∈ st.url_set) from by
    push_neg; exact ⟨h1, h2, h3⟩)]
  rw [if_neg (show ¬ env.analyzed url = true from by simp [h4])]
  rw [h5]
  rw [if_neg h6]

/-- Every record added by the keyword fallback carries
`match_type = "keywords"`. -/
theorem dzen_keyword_branch_no_sbert (env : DzenEnv) (st : DzenState) (url title : String) :
    ∀ r ∈ (dzen_keyword_branch env st url title).new_history,
      r ∈ st.new_history ∨ r.match_type = some "keywords" := by
  intro r hr
  simp only [dzen_keyword_branch] at hr
  split at hr
  · rcases List.mem_append.mp hr with h | h
    · exact Or.inl h
    · rw [List.mem_singleton] at h
      subst h
      exact Or.inr rfl
  · exact Or.inl hr

/-- C5: `find_best_match` keeps the strictly greatest score with ties going
to the first-seen item (the returned item is the first attaining the
maximum, characterized by the two ∀-conjuncts), and the caller of
src/sources/dzen.py accepts a candidate as a semantic match exactly when a
best item exists and its score is ≥ the threshold — a score exactly equal
to the threshold is accepted and any strictly smaller score is rejected. -/
theorem claim5_best_match_threshold :
    (∀ (embed : String → Option (List ℚ)) (keywords : List String) (t : String)
      (pool : List MosruItem),
      (find_best_match embed keywords t pool = (none, 0) ∧
        ∀ i ∈ pool, calculate_similarity_sbert embed keywords t i ≤ 0) ∨
      (∃ k : Fin pool.length,
        find_best_match embed keywords t pool =
          (some (pool.get k), calculate_similarity_sbert embed keywords t (pool.get k)) ∧
        0 < calculate_similarity_sbert embed keywords t (pool.get k) ∧
        (∀ j : Fin pool.length, calculate_similarity_sbert embed keywords t (pool.get j) ≤
          calculate_similarity_sbert embed keywords t (pool.get k)) ∧
        (∀ j : Fin pool.length, j.1 < k.1 →
          calculate_similarity_sbert embed keywords t (pool.get j) <
          calculate_similarity_sbert embed keywords t (pool.get k)))) ∧
    (∀ (env : DzenEnv) (url title : String),
      url ≠ "" → title ≠ "" → env.analyzed url = false → url ∉ env.dzen_history_urls →
      ((∃ r ∈ (fetch_dzen_news env [(url, title)] []).new_history,
          r.match_type = some "sbert") ↔
        ((find_best_match env.embed env.keywords title env.recent_mosru).1.isSome = true ∧
          env.threshold ≤ (find_best_match env.embed env.keywords title env.recent_mosru).2))) := by
  constructor
  · intro embed keywords t pool
    have h := best_step_foldl_char (calculate_similarity_sbert embed keywords t) pool (none, 0)
    rw [find_best_match, fbm_step]
    exact h
  · intro env url title h1 h2 h4 h6
    have hrun : fetch_dzen_news env [(url, title)] [] =
        dzen_process_card env (dzen_init_state []) (url, title) := rfl
    have hfresh := dzen_process_card_fresh env (dzen_init_state []) url title h1 h2
      (List.not_mem_nil url) h4 rfl h6
    rw [hrun, hfresh]
    rcases hfb : find_best_match env.embed env.keywords title env.recent_mosru with ⟨b, s⟩
    cases b with
    | none =>
      constructor
      · rintro ⟨r, hr, hmt⟩
        rcases dzen_keyword_branch_no_sbert env _ url title r hr with h | h
        · exact absurd h (List.not_mem_nil r)
        · rw [hmt] at h
          simp at h
      · rintro ⟨hsome, _⟩
        simp at hsome
    | some bm =>
      dsimp only [dzen_init_state]
      by_cases hθ : env.threshold ≤ s
      · rw [if_pos hθ]
        rw [if_neg (show ¬ (already_claimed [] bm.url s = true) from by
          simp [already_claimed])]
        constructor
        · intro _
          exact ⟨rfl, hθ⟩
        · intro _
          exact ⟨sbert_history_record url title env.now_iso bm s, by simp, rfl⟩
      · rw [if_neg hθ]
        constructor
        · rintro ⟨r, hr, hmt⟩
          rcases dzen_keyword_branch_no_sbert env _ url title r hr with h | h
          · exact absurd h (List.not_mem_nil r)
          · rw [hmt] at h
            simp at h
        · rintro ⟨_, h⟩
          exact absurd h hθ

/-- Witness for C5 at the concrete environment `c1_env` and a fresh card. -/
theorem claim5_witness :
    ("u1" ≠ "" ∧ "aaa" ≠ "" ∧ c1_env.analyzed "u1" = false ∧
      "u1" ∉ c1_env.dzen_history_urls) ∧
    ((∃ r ∈ (fetch_dzen_news c1_env [("u1", "aaa")] []).new_history,
        r.match_type = some "sbert") ↔
      ((find_best_match c1_env.embed c1_env.keywords "aaa" c1_env.recent_mosru).1.isSome = true ∧
        c1_env.threshold ≤
          (find_best_match c1_env.embed c1_env.keywords "aaa" c1_env.recent_mosru).2)) :=
  ⟨⟨by decide, by decide, rfl, List.not_mem_nil _⟩,
    claim5_best_match_threshold.2 c1_env "u1" "aaa" (by decide) (by decide) rfl
      (List.not_mem_nil _)⟩

/-- C6: when a fresh candidate's normalized title equals that of an existing
history record but its url differs, the pass rewrites exactly that record's
url and timestamp in place (all other fields and all other records
unchanged, under the invariant that normalized titles are unique in the
history), adds no record, delivers nothing, and the history keeps its
length. -/
theorem claim6_rename_in_place (env : DzenEnv) (history0 : List DzenHistoryItem)
    (url title : String) (rec : DzenHistoryItem)
    (h1 : url ≠ "") (h2 : title ≠ "")
    (h4 : env.analyzed url = false)
    (hfind : assocFind (normalize_text_simple title) (build_title_map history0) = some rec)
    (hdiff : rec.url ≠ url)
    (huni : ∀ i ∈ history0,
      normalize_text_simple i.title = normalize_text_simple title → i = rec) :
    (fetch_dzen_news env [(url, title)] history0).history_raw =
      history0.map (fun i =>
        if normalize_text_simple i.title = normalize_text_simple title then
          { i with url := url, added_at := env.now_iso } else i) ∧
    (fetch_dzen_news env [(url, title)] history0).news = [] ∧
    (fetch_dzen_news env [(url, title)] history0).new_history = [] ∧
    (fetch_dzen_news env [(url, title)] history0).history_raw.length = history0.length := by
  have hrun : fetch_dzen_news env [(url, title)] history0 =
      dzen_process_card env (dzen_init_state history0) (url, title) := rfl
  have hstep : dzen_process_card env (dzen_init_state history0) (url, title) =
      { dzen_init_state history0 with
        url_set := [url],
        title_map := mapInsert (build_title_map history0) (normalize_text_simple title)
          { rec with url := url, added_at := env.now_iso },
        history_raw := history0.map (fun i =>
          if normalize_text_simple i.title ≠ normalize_text_simple title then i
          else { rec with url := url, added_at := env.now_iso }) } := by
    simp only [dzen_process_card, dzen_init_state]
    rw [if_neg (show ¬ (url = "" ∨ title = "" ∨ url ∈ ([] : List String)) from by
      push_neg; exact ⟨h1, h2, List.not_mem_nil url⟩)]
    rw [if_neg (show ¬ env.analyzed url = true from by simp [h4])]
    rw [hfind]
    dsimp only
    rw [if_pos hdiff]
  rw [hrun, hstep]
  refine ⟨?_, rfl, rfl, ?_⟩
  · dsimp only
    apply List.map_congr_left
    intro i hi
    by_cases hni : normalize_text_simple i.title = normalize_text_simple title
    · rw [if_neg (not_not_intro hni), if_pos hni, huni i hi hni]
    · rw [if_pos hni, if_neg hni]
  · dsimp only
    rw [List.length_map]

/-- Witness for C6: record `{url A, title "X y"}` and candidate
`(B, "X  y!")` with the same normalized title "x y". -/
theorem claim6_witness :
    (c6_rec.url ≠ "B" ∧
      assocFind (normalize_text_simple "X  y!") (build_title_map [c6_rec]) = some c6_rec ∧
      (∀ i ∈ [c6_rec],
        normalize_text_simple i.title = normalize_text_simple "X  y!" → i = c6_rec)) ∧
    (fetch_dzen_news c6_env [("B", "X  y!")] [c6_rec]).history_raw =
      [c6_rec].map (fun i =>
        if normalize_text_simple i.title = normalize_text_simple "X  y!" then
          { i with url := "B", added_at := c6_env.now_iso } else i) ∧
    (fetch_dzen_news c6_env [("B", "X  y!")] [c6_rec]).news = [] ∧
    (fetch_dzen_news c6_env [("B", "X  y!")] [c6_rec]).new_history = [] ∧
    (fetch_dzen_news c6_env [("B", "X  y!")] [c6_rec]).history_raw.length = [c6_rec].length := by
  have h := claim6_rename_in_place c6_env [c6_rec] "B" "X  y!" c6_rec (by decide) (by decide)
    rfl (by decide) (by decide) (by decide)
  exact ⟨⟨by decide, by decide, by decide⟩, h.1, h.2.1, h.2.2.1, h.2.2.2⟩

/-- Concrete score of candidate "aaa" against `c1_mosru` under `c1_embed`:
two cosines of 1/(1+1e-9), no bonus. -/
theorem c1_score_aaa :
    calculate_similarity_sbert c1_embed [] "aaa" c1_mosru = 1000000000 / 1000000001 := by
  have h1 : c1_embed "aaa" = some [1, 0] := rfl
  have h2 : get_mosru_embeddings c1_embed { url := "m", title := "ccc", snippet := "" } =
      some ⟨[1, 0], [1, 0], [0, 0]⟩ := rfl
  have hc : count_common_words "aaa" "ccc" = 0 := by decide
  have hk : has_keyword_phrase_in_both [] "aaa" "ccc" = false := rfl
  have hcos : cos_sim [(1 : ℚ), 0] [1, 0] = 1000000000 / 1000000001 := by
    norm_num [cos_sim, vnorm, qsqrt, dotQ, isqrt, isqrtAux]
  simp only [calculate_similarity_sbert, c1_mosru, h1, h2, hc, hk, Bool.false_eq_true, if_false]
  rw [if_neg (by norm_num : ¬ (3 : ℕ) ≤ 0), hcos]
  rw [show (1000000000 / 1000000001 + 1000000000 / 1000000001 : ℚ) / 2 * (1 + 0) =
    1000000000 / 1000000001 by ring]
  rw [min_eq_left (by norm_num)]

/-- Concrete score of candidate "bbb" against `c1_mosru` under `c1_embed`:
two cosines of 4/(5+1e-9), no bonus. -/
theorem c1_score_bbb :
    calculate_similarity_sbert c1_embed [] "bbb" c1_mosru = 4000000000 / 5000000001 := by
  have h1 : c1_embed "bbb" = some [4, 3] := rfl
  have h2 : get_mosru_embeddings c1_embed { url := "m", title := "ccc", snippet := "" } =
      some ⟨[1, 0], [1, 0], [0, 0]⟩ := rfl
  have hc : count_common_words "bbb" "ccc" = 0 := by decide
  have hk : has_keyword_phrase_in_both [] "bbb" "ccc" = false := rfl
  have hcos : cos_sim [(4 : ℚ), 3] [1, 0] = 4000000000 / 5000000001 := by
    norm_num [cos_sim, vnorm, qsqrt, dotQ, isqrt, isqrtAux]
  simp only [calculate_similarity_sbert, c1_mosru, h1, h2, hc, hk, Bool.false_eq_true, if_false]
  rw [if_neg (by norm_num : ¬ (3 : ℕ) ≤ 0), hcos]
  rw [show (4000000000 / 5000000001 + 4000000000 / 5000000001 : ℚ) / 2 * (1 + 0) =
    4000000000 / 5000000001 by ring]
  rw [min_eq_left (by norm_num)]

/-- The matcher's result for "aaa" over the singleton pool. -/
theorem c1_find_aaa :
    find_best_match c1_embed [] "aaa" [c1_mosru] = (some c1_mosru, 1000000000 / 1000000001) := by
  rw [find_best_match, List.foldl_cons, List.foldl_nil, fbm_step, best_step, c1_score_aaa]
  rw [if_pos (by norm_num : ((none : Option MosruItem), (0 : ℚ)).2 < 1000000000 / 1000000001)]

/-- The matcher's result for "bbb" over the singleton pool. -/
theorem c1_find_bbb :
    find_best_match c1_embed [] "bbb" [c1_mosru] = (some c1_mosru, 4000000000 / 5000000001) := by
  rw [find_best_match, List.foldl_cons, List.foldl_nil, fbm_step, best_step, c1_score_bbb]
  rw [if_pos (by norm_num : ((none : Option MosruItem), (0 : ℚ)).2 < 4000000000 / 5000000001)]

/-- A fresh candidate that clears the threshold and is not blocked by a
prior claim is accepted as a semantic match. -/
theorem dzen_step_accept (env : DzenEnv) (st : DzenState) (url title : String)
    (bm : MosruItem) (s : ℚ)
    (h1 : url ≠ "") (h2 : title ≠ "") (h3 : url ∉ st.url_set)
    (h4 : env.analyzed url = false)
    (h5 : assocFind (normalize_text_simple title) st.title_map = none)
    (h6 : url ∉ env.dzen_history_urls)
    (hfb : find_best_match env.embed env.keywords title env.recent_mosru = (some bm, s))
    (hθ : env.threshold ≤ s)
    (hcl : already_claimed st.history_raw bm.url s = false) :
    dzen_process_card env st (url, title) =
      { st with
        url_set := url :: st.url_set,
        news := st.news ++ [⟨pyStrip title, url⟩],
        new_history := st.new_history ++ [sbert_history_record url title env.now_iso bm s] } := by
  rw [dzen_process_card_fresh env st url title h1 h2 h3 h4 h5 h6, hfb]
  dsimp only
  rw [if_pos hθ, if_neg (show ¬ (already_claimed st.history_raw bm.url s = true) from by
    rw [hcl]; exact Bool.false_ne_true)]

/-- A fresh candidate that clears the threshold but whose best reference is
already claimed at a strictly higher score is rejected: only the url is
recorded as filtered out. -/
theorem dzen_step_reject_claimed (env : DzenEnv) (st : DzenState) (url title : String)
    (bm : MosruItem) (s : ℚ)
    (h1 : url ≠ "") (h2 : title ≠ "") (h3 : url ∉ st.url_set)
    (h4 : env.analyzed url = false)
    (h5 : assocFind (normalize_text_simple title) st.title_map = none)
    (h6 : url ∉ env.dzen_history_urls)
    (hfb : find_best_match env.embed env.keywords title env.recent_mosru = (some bm, s))
    (hθ : env.threshold ≤ s)
    (hcl : already_claimed st.history_raw bm.url s = true) :
    dzen_process_card env st (url, title) =
      { st with url_set := url :: st.url_set, filtered_out := st.filtered_out ++ [url] } := by
  rw [dzen_process_card_fresh env st url title h1 h2 h3 h4 h5 h6, hfb]
  dsimp only
  rw [if_pos hθ, if_pos hcl]

/-- C1 amended: (i) the persisted-history tie-break holds as specified — a
fresh candidate whose best reference is claimed by a persisted semantic
record with strictly higher score is rejected; (ii) but within a single
pass the consulted history is not extended by acceptances, so over an empty
starting history two candidates matching the same reference above threshold
are BOTH accepted (whatever the order of their scores), not only the
higher-scoring one. -/
theorem claim1_amended_tie_break :
    (∀ (env : DzenEnv) (st : DzenState) (url title : String) (bm : MosruItem) (s : ℚ),
      url ≠ "" → title ≠ "" → url ∉ st.url_set → env.analyzed url = false →
      assocFind (normalize_text_simple title) st.title_map = none →
      url ∉ env.dzen_history_urls →
      find_best_match env.embed env.keywords title env.recent_mosru = (some bm, s) →
      env.threshold ≤ s →
      (∃ rec ∈ st.history_raw, rec.match_type = some "sbert" ∧
        rec.mosru_source_url = some bm.url ∧ s < rec.similarity_score.getD 0) →
      dzen_process_card env st (url, title) =
        { st with url_set := url :: st.url_set, filtered_out := st.filtered_out ++ [url] }) ∧
    (∀ (env : DzenEnv) (u1 t1 u2 t2 : String) (bm1 bm2 : MosruItem) (s1 s2 : ℚ),
      u1 ≠ "" → t1 ≠ "" → u2 ≠ "" → t2 ≠ "" → u2 ≠ u1 →
      env.analyzed u1 = false → env.analyzed u2 = false →
      u1 ∉ env.dzen_history_urls → u2 ∉ env.dzen_history_urls →
      find_best_match env.embed env.keywords t1 env.recent_mosru = (some bm1, s1) →
      find_best_match env.embed env.keywords t2 env.recent_mosru = (some bm2, s2) →
      env.threshold ≤ s1 → env.threshold ≤ s2 →
      (fetch_dzen_news env [(u1, t1), (u2, t2)] []).new_history =
        [sbert_history_record u1 t1 env.now_iso bm1 s1,
         sbert_history_record u2 t2 env.now_iso bm2 s2]) := by
  constructor
  · intro env st url title bm s h1 h2 h3 h4 h5 h6 hfb hθ hex
    have hcl : already_claimed st.history_raw bm.url s = true := by
      rw [already_claimed, List.any_eq_true]
      obtain ⟨rec, hrec, hmt, hsrc, hlt⟩ := hex
      exact ⟨rec, hrec, decide_eq_true ⟨hmt, hsrc, hlt⟩⟩
    exact dzen_step_reject_claimed env st url title bm s h1 h2 h3 h4 h5 h6 hfb hθ hcl
  · intro env u1 t1 u2 t2 bm1 bm2 s1 s2 h1 h2 h3 h4 hne ha1 ha2 hh1 hh2 hfb1 hfb2 hθ1 hθ2
    have hrun : fetch_dzen_news env [(u1, t1), (u2, t2)] [] =
        dzen_process_card env (dzen_process_card env (dzen_init_state []) (u1, t1)) (u2, t2) :=
      rfl
    have hstep1 := dzen_step_accept env (dzen_init_state []) u1 t1 bm1 s1 h1 h2
      (List.not_mem_nil u1) ha1 rfl hh1 hfb1 hθ1 rfl
    have hstep2 := dzen_step_accept env
      ({ dzen_init_state [] with
        url_set := u1 :: (dzen_init_state []).url_set,
        news := (dzen_init_state []).news ++ [⟨pyStrip t1, u1⟩],
        new_history := (dzen_init_state []).new_history ++
          [sbert_history_record u1 t1 env.now_iso bm1 s1] }) u2 t2 bm2 s2 h3 h4
      (by simp [dzen_init_state, hne]) ha2 rfl hh2 hfb2 hθ2 rfl
    rw [hrun, hstep1, hstep2]
    simp [dzen_init_state]

/-- C1 counterexample: over an empty starting history, the two candidates
"aaa" (score 1000000000/1000000001) and "bbb" (score 4000000000/5000000001,
strictly lower but still above the 0.79 threshold) both claim the same
reference `c1_mosru` and are BOTH accepted as semantic matches in one pass
— refuting that only the higher-scoring one is ever accepted. -/
theorem claim1_counterexample :
    (fetch_dzen_news c1_env [("u1", "aaa"), ("u2", "bbb")] []).new_history =
      [sbert_history_record "u1" "aaa" "T" c1_mosru (1000000000 / 1000000001),
       sbert_history_record "u2" "bbb" "T" c1_mosru (4000000000 / 5000000001)] ∧
    (4000000000 : ℚ) / 5000000001 < 1000000000 / 1000000001 ∧
    (79 : ℚ) / 100 ≤ 4000000000 / 5000000001 := by
  refine ⟨?_, by norm_num, by norm_num⟩
  have hrun : fetch_dzen_news c1_env [("u1", "aaa"), ("u2", "bbb")] [] =
      dzen_process_card c1_env (dzen_process_card c1_env (dzen_init_state []) ("u1", "aaa"))
        ("u2", "bbb") := rfl
  have hstep1 := dzen_step_accept c1_env (dzen_init_state []) "u1" "aaa" c1_mosru
    (1000000000 / 1000000001) (by decide) (by decide) (List.not_mem_nil _) rfl rfl
    (List.not_mem_nil _) c1_find_aaa (by norm_num [c1_env]) rfl
  have hstep2 := dzen_step_accept c1_env
    ({ dzen_init_state [] with
      url_set := "u1" :: (dzen_init_state []).url_set,
      news := (dzen_init_state []).news ++ [⟨pyStrip "aaa", "u1"⟩],
      new_history := (dzen_init_state []).new_history ++
        [sbert_history_record "u1" "aaa" c1_env.now_iso c1_mosru
          (1000000000 / 1000000001)] }) "u2" "bbb" c1_mosru (4000000000 / 5000000001)
    (by decide) (by decide) (by simp [dzen_init_state]) rfl rfl (List.not_mem_nil _)
    c1_find_bbb (by norm_num [c1_env]) rfl
  rw [hrun, hstep1, hstep2]
  simp [dzen_init_state, c1_env]

/-- Witness for C1 amended part (i): history holding `c1_prior` (a semantic
claim of `c1_mosru` at score 1) makes the lower-scoring candidate "bbb"
rejected. -/
theorem claim1_witness :
    ((∃ rec ∈ (dzen_init_state [c1_prior]).history_raw, rec.match_type = some "sbert" ∧
        rec.mosru_source_url = some c1_mosru.url ∧
        (4000000000 : ℚ) / 5000000001 < rec.similarity_score.getD 0) ∧
      c1_env.threshold ≤ (4000000000 : ℚ) / 5000000001) ∧
    dzen_process_card c1_env (dzen_init_state [c1_prior]) ("u2", "bbb") =
      { dzen_init_state [c1_prior] with
        url_set := "u2" :: (dzen_init_state [c1_prior]).url_set,
        filtered_out := (dzen_init_state [c1_prior]).filtered_out ++ ["u2"] } := by
  have hex : ∃ rec ∈ (dzen_init_state [c1_prior]).history_raw, rec.match_type = some "sbert" ∧
      rec.mosru_source_url = some c1_mosru.url ∧
      (4000000000 : ℚ) / 5000000001 < rec.similarity_score.getD 0 := by
    refine ⟨c1_prior, by simp [dzen_init_state], rfl, rfl, ?_⟩
    norm_num [c1_prior, sbert_history_record, Option.getD]
  have hθ : c1_env.threshold ≤ (4000000000 : ℚ) / 5000000001 := by norm_num [c1_env]
  refine ⟨⟨hex, hθ⟩, ?_⟩
  exact claim1_amended_tie_break.1 c1_env (dzen_init_state [c1_prior]) "u2" "bbb" c1_mosru
    (4000000000 / 5000000001) (by decide) (by decide) (List.not_mem_nil _) rfl (by decide)
    (List.not_mem_nil _) c1_find_bbb hθ hex

/-- Flipping `in_dzen` flags preserves the url list of a mos.ru history. -/
theorem mosru_flag_map_urls (l : List MosruHistoryItem) (us : List String) :
    (l.map (fun i =>
      if i.url ∈ us ∧ i.in_dzen = false then { i with in_dzen := true } else i)).map
      MosruHistoryItem.url = l.map MosruHistoryItem.url := by
  rw [List.map_map]
  apply List.map_congr_left
  intro i hi
  dsimp only [Function.comp]
  split <;> rfl

/-- Every fetched mos.ru history item's url ends up in the persisted mos.ru
history of the pass (whether or not a write happened). -/
theorem reconcile_saved_mosru_urls (mh : List MosruHistoryItem) (dh : List DzenHistoryItem)
    (mn : List NewsItem) (mni : List MosruHistoryItem) (dn : List NewsItem)
    (dni : List DzenHistoryItem) :
    ∀ i ∈ mni, i.url ∈
      (fetch_and_send_news mh dh mn mni dn dni).mosru_history_saved.map
        MosruHistoryItem.url := by
  intro i hi
  simp only [fetch_and_send_news]
  split
  · rw [mosru_flag_map_urls, List.map_append]
    by_cases hmem : i.url ∈ mh.map MosruHistoryItem.url
    · exact List.mem_append.mpr (Or.inl hmem)
    · exact List.mem_append.mpr (Or.inr
        (List.mem_map_of_mem _ (List.mem_filter.mpr ⟨hi, decide_eq_true hmem⟩)))
  next h =>
    push_neg at h
    have hall := List.filter_eq_nil_iff.mp h.1
    have hni := hall i hi
    by_contra hmem
    exact hni (decide_eq_true hmem)

/-- Every fetched aggregator match record's url ends up in the persisted
Dzen history of the pass. -/
theorem reconcile_saved_dzen_urls (mh : List MosruHistoryItem) (dh : List DzenHistoryItem)
    (mn : List NewsItem) (mni : List MosruHistoryItem) (dn : List NewsItem)
    (dni : List DzenHistoryItem) :
    ∀ i ∈ dni, i.url ∈
      (fetch_and_send_news mh dh mn mni dn dni).dzen_history_saved.map
        DzenHistoryItem.url := by
  intro i hi
  simp only [fetch_and_send_news]
  split
  · rw [List.map_append]
    by_cases hmem : i.url ∈ dh.map DzenHistoryItem.url
    · exact List.mem_append.mpr (Or.inl hmem)
    · exact List.mem_append.mpr (Or.inr
        (List.mem_map_of_mem _ (List.mem_filter.mpr ⟨hi, decide_eq_true hmem⟩)))
  next h =>
    have hall := List.filter_eq_nil_iff.mp (not_ne_iff.mp h)
    have hni := hall i hi
    by_contra hmem
    exact hni (decide_eq_true hmem)

/-- C7: reconciliation is idempotent across runs — after one pass persists
its new items, a second pass over the identical fetched input (whose
delivery urls are covered by its history-item urls, as both fetchers
guarantee) produces empty new-item and delivery sets; and nothing already
present by url in persisted history is ever delivered. -/
theorem claim7_reconcile_idempotent (mh : List MosruHistoryItem) (dh : List DzenHistoryItem)
    (mn : List NewsItem) (mni : List MosruHistoryItem) (dn : List NewsItem)
    (dni : List DzenHistoryItem)
    (hm : ∀ n ∈ mn, n.url ∈ mni.map MosruHistoryItem.url)
    (hd : ∀ n ∈ dn, n.url ∈ dni.map DzenHistoryItem.url) :
    (fetch_and_send_news (fetch_and_send_news mh dh mn mni dn dni).mosru_history_saved
      (fetch_and_send_news mh dh mn mni dn dni).dzen_history_saved
      mn mni dn dni).new_mosru_news = [] ∧
    (fetch_and_send_news (fetch_and_send_news mh dh mn mni dn dni).mosru_history_saved
      (fetch_and_send_news mh dh mn mni dn dni).dzen_history_saved
      mn mni dn dni).new_mosru_history = [] ∧
    (fetch_and_send_news (fetch_and_send_news mh dh mn mni dn dni).mosru_history_saved
      (fetch_and_send_news mh dh mn mni dn dni).dzen_history_saved
      mn mni dn dni).new_dzen_news = [] ∧
    (fetch_and_send_news (fetch_and_send_news mh dh mn mni dn dni).mosru_history_saved
      (fetch_and_send_news mh dh mn mni dn dni).dzen_history_saved
      mn mni dn dni).new_dzen_history = [] ∧
    (∀ n ∈ (fetch_and_send_news mh dh mn mni dn dni).new_mosru_news,
      n.url ∉ mh.map MosruHistoryItem.url) ∧
    (∀ n ∈ (fetch_and_send_news mh dh mn mni dn dni).new_dzen_news,
      n.url ∉ dh.map DzenHistoryItem.url) := by
  have hsm := reconcile_saved_mosru_urls mh dh mn mni dn dni
  have hsd := reconcile_saved_dzen_urls mh dh mn mni dn dni
  refine ⟨?_, ?_, ?_, ?_, ?_, ?_⟩
  · show mn.filter (fun n => decide (n.url ∉
      ((fetch_and_send_news mh dh mn mni dn dni).mosru_history_saved).map
        MosruHistoryItem.url)) = []
    apply List.filter_eq_nil_iff.mpr
    intro n hn hdec
    obtain ⟨i, hi, hiu⟩ := List.mem_map.mp (hm n hn)
    exact of_decide_eq_true hdec (hiu ▸ hsm i hi)
  · show mni.filter (fun i => decide (i.url ∉
      ((fetch_and_send_news mh dh mn mni dn dni).mosru_history_saved).map
        MosruHistoryItem.url)) = []
    apply List.filter_eq_nil_iff.mpr
    intro i hi hdec
    exact of_decide_eq_true hdec (hsm i hi)
  · show dn.filter (fun n => decide (n.url ∉
      ((fetch_and_send_news mh dh mn mni dn dni).dzen_history_saved).map
        DzenHistoryItem.url)) = []
    apply List.filter_eq_nil_iff.mpr
    intro n hn hdec
    obtain ⟨i, hi, hiu⟩ := List.mem_map.mp (hd n hn)
    exact of_decide_eq_true hdec (hiu ▸ hsd i hi)
  · show dni.filter (fun i => decide (i.url ∉
      ((fetch_and_send_news mh dh mn mni dn dni).dzen_history_saved).map
        DzenHistoryItem.url)) = []
    apply List.filter_eq_nil_iff.mpr
    intro i hi hdec
    exact of_decide_eq_true hdec (hsd i hi)
  · intro n hn
    have hn2 : n ∈ mn.filter (fun m => decide (m.url ∉ mh.map MosruHistoryItem.url)) := hn
    have hp : decide (n.url ∉ mh.map MosruHistoryItem.url) = true :=
      (List.mem_filter.mp hn2).2
    exact of_decide_eq_true hp
  · intro n hn
    have hn2 : n ∈ dn.filter (fun m => decide (m.url ∉ dh.map DzenHistoryItem.url)) := hn
    have hp : decide (n.url ∉ dh.map DzenHistoryItem.url) = true :=
      (List.mem_filter.mp hn2).2
    exact of_decide_eq_true hp

/-- Witness for C7 at a concrete fetched input and empty starting history. -/
theorem claim7_witness :
    (∀ n ∈ [NewsItem.mk "t" "a"],
      n.url ∈ [MosruHistoryItem.mk "a" "t" "s" "T" false].map MosruHistoryItem.url) ∧
    (∀ n ∈ ([] : List NewsItem),
      n.url ∈ ([] : List DzenHistoryItem).map DzenHistoryItem.url) ∧
    (fetch_and_send_news
      (fetch_and_send_news [] [] [NewsItem.mk "t" "a"]
        [MosruHistoryItem.mk "a" "t" "s" "T" false] [] []).mosru_history_saved
      (fetch_and_send_news [] [] [NewsItem.mk "t" "a"]
        [MosruHistoryItem.mk "a" "t" "s" "T" false] [] []).dzen_history_saved
      [NewsItem.mk "t" "a"] [MosruHistoryItem.mk "a" "t" "s" "T" false] [] []).new_mosru_news
      = [] ∧
    (fetch_and_send_news
      (fetch_and_send_news [] [] [NewsItem.mk "t" "a"]
        [MosruHistoryItem.mk "a" "t" "s" "T" false] [] []).mosru_history_saved
      (fetch_and_send_news [] [] [NewsItem.mk "t" "a"]
        [MosruHistoryItem.mk "a" "t" "s" "T" false] [] []).dzen_history_saved
      [NewsItem.mk "t" "a"] [MosruHistoryItem.mk "a" "t" "s" "T" false] [] []).new_mosru_history
      = [] ∧
    (fetch_and_send_news
      (fetch_and_send_news [] [] [NewsItem.mk "t" "a"]
        [MosruHistoryItem.mk "a" "t" "s" "T" false] [] []).mosru_history_saved
      (fetch_and_send_news [] [] [NewsItem.mk "t" "a"]
        [MosruHistoryItem.mk "a" "t" "s" "T" false] [] []).dzen_history_saved
      [NewsItem.mk "t" "a"] [MosruHistoryItem.mk "a" "t" "s" "T" false] [] []).new_dzen_news
      = [] ∧
    (fetch_and_send_news
      (fetch_and_send_news [] [] [NewsItem.mk "t" "a"]
        [MosruHistoryItem.mk "a" "t" "s" "T" false] [] []).mosru_history_saved
      (fetch_and_send_news [] [] [NewsItem.mk "t" "a"]
        [MosruHistoryItem.mk "a" "t" "s" "T" false] [] []).dzen_history_saved
      [NewsItem.mk "t" "a"] [MosruHistoryItem.mk "a" "t" "s" "T" false] [] []).new_dzen_history
      = [] ∧
    (∀ n ∈ (fetch_and_send_news [] [] [NewsItem.mk "t" "a"]
        [MosruHistoryItem.mk "a" "t" "s" "T" false] [] []).new_mosru_news,
      n.url ∉ ([] : List MosruHistoryItem).map MosruHistoryItem.url) ∧
    (∀ n ∈ (fetch_and_send_news [] [] [NewsItem.mk "t" "a"]
        [MosruHistoryItem.mk "a" "t" "s" "T" false] [] []).new_dzen_news,
      n.url ∉ ([] : List DzenHistoryItem).map DzenHistoryItem.url) := by
  have h := claim7_reconcile_idempotent [] [] [NewsItem.mk "t" "a"]
    [MosruHistoryItem.mk "a" "t" "s" "T" false] [] [] (by decide) (by decide)
  exact ⟨by decide, by decide, h.1, h.2.1, h.2.2.1, h.2.2.2.1, h.2.2.2.2.1, h.2.2.2.2.2⟩

/-! ## Sanity checks of the text and vector model -/

example : normalize_text_simple "В Москве — Открылась!  поликлиника N5" =
    "в москве открылась поликлиника n5" := by decide

example : count_common_words "Открылась новая поликлиника в Москве"
    "В Москве открылась поликлиника" = 3 := by decide

example : qsqrt 25 = 5 := by norm_num [qsqrt, isqrt, isqrtAux]

example : cos_sim [4, 3] [1, 0] = 4000000000 / 5000000001 := by
  norm_num [cos_sim, vnorm, qsqrt, isqrt, isqrtAux, dotQ]
